import Mathlib

/-!
Verification development for `netneurotools` (koudyk/netneurotools).

Shallow embedding of `src/netneurotools/stats.py`, covering:

* `gen_spinsamples` (lines 513-706): the spin-test resampling generator,
  together with its input validation, the duplicate-avoidance retry loop
  (hard cap of 500 attempts per column), the warning-once flag, and the
  assembly of the resampling matrix and cost vector.
* `_gen_rotation` (lines 481-510): the paired left/right rotation generator.
* `permtest_1samp` / `permtest_rel` / `permtest_pearsonr` (lines 148-421)
  and `efficient_pearsonr` (lines 423-478): the permutation-test utilities.

Modelling conventions:

* numpy float arrays are modelled over `ℚ` where the code only moves values
  around and compares them, and over `ℝ` where the code genuinely computes
  square roots (the Pearson correlation path).
* The external scipy/numpy collaborators consumed by `gen_spinsamples`
  (`np.random.RandomState` normal draws, `np.linalg.qr`,
  `scipy.spatial.cKDTree.query`, `scipy.spatial.distance_matrix`,
  `scipy.optimize.linear_sum_assignment`) are modelled as an oracle
  (`SpinOracle`) indexed by the number of random draws consumed so far:
  attempt number `t` of a call consumes draw `t`.  The contract of the
  collaborators (`SpinOracle.Valid`) records exactly what scipy guarantees:
  nearest-neighbour queries return an in-range donor index per query point
  and a non-negative distance sum, and the linear-sum-assignment solver
  returns a bijective assignment (its column indices are a permutation of
  `0..n-1`) with a non-negative total distance.
* The resampling matrix of shape `(N, n_rotate)` is represented as the list
  of its `n_rotate` columns, each of length `N` (the code fills it
  column-by-column with `spinsamples[:, n] = resampled`).
* The per-column attempt count and the number of emitted warnings are kept
  as ghost fields of the result so that the warning policy is observable.
-/

/-- Truncation toward zero, modelling numpy `astype(int)` on a float value
(`hemiid = np.asanyarray(hemiid).astype(int)`, stats.py line 616). -/
def truncInt (q : ℚ) : ℤ := if q < 0 then ⌈q⌉ else ⌊q⌋

/-- A 2-D numpy array of floats, as passed for `coords`: a shape
`(nrows, ncols)` plus an entry function.  Only the shape participates in
validation; the entries are consumed by the scipy collaborators, which are
modelled by the `SpinOracle` below. -/
structure NpArray2 where
  nrows : Nat
  ncols : Nat
  entry : Nat → Nat → ℚ

/-- Number of dimensions of a 2-D numpy array after `squeeze()`: axes of
size 1 are removed (stats.py line 619 checks `coords.squeeze().ndim != 2`). -/
def squeezedNdim (shape : List Nat) : Nat := (shape.filter (fun d => d ≠ 1)).length

/-- Model of `np.max` on an integer vector (`none` on the empty array, where
numpy raises). -/
def listMaxZ : List ℤ → Option ℤ
  | [] => none
  | x :: xs =>
    match listMaxZ xs with
    | none => some x
    | some m => some (max x m)

/-- Model of `np.min` on an integer vector (`none` on the empty array, where
numpy raises). -/
def listMinZ : List ℤ → Option ℤ
  | [] => none
  | x :: xs =>
    match listMinZ xs with
    | none => some x
    | some m => some (min x m)

/-- The `ValueError`s raised by `gen_spinsamples` validation
(stats.py lines 618-635), in source order. -/
inductive SpinError where
  /-- coords not of shape (N, 3) (line 620). -/
  | invalidCoordsShape : SpinError
  /-- coords and hemiid lengths differ (line 628). -/
  | lengthMismatch : SpinError
  /-- hemiid values are not exactly {0, 1} (line 632). -/
  | invalidHemiDomain : SpinError
deriving DecidableEq, Repr

/-- Input validation of `gen_spinsamples` (stats.py lines 615-635), in
source order: coords shape check, length check, hemisphere-domain check.
`hemiid` is supplied as a 1-D float vector (so the line-625 `ndim != 1`
check is satisfied by construction); it is truncated to int (line 616)
before any check.  Returns the truncated labels on success. -/
def validateSpin (coords : NpArray2) (hemiid : List ℚ) : Except SpinError (List ℤ) :=
  let hemi := hemiid.map truncInt
  if coords.ncols ≠ 3 ∨ squeezedNdim [coords.nrows, coords.ncols] ≠ 2 then
    .error .invalidCoordsShape
  else if coords.nrows ≠ hemi.length then
    .error .lengthMismatch
  else if listMaxZ hemi ≠ some 1 ∨ listMinZ hemi ≠ some 0 then
    .error .invalidHemiDomain
  else
    .ok hemi

/-- Oracle for the randomized geometric collaborators of one
`gen_spinsamples` call.  Attempt `t` (counting every retry across all
columns, in order) consumes random draw `t`; for that draw the oracle
gives the scipy outputs on the call's fixed coordinates:

* `lcol`/`rcol`: `cKDTree(coords_h @ rot).query(coords_h, 1)` donor indices
  for the left/right hemisphere (approximate mode, lines 679-682);
* `lcolEx`/`rcolEx`: `linear_sum_assignment` column indices on the full
  distance matrices (exact mode, lines 669-672);
* `costL`/`costR` and `costLEx`/`costREx`: the corresponding summed
  distances entering `ccost` (lines 673 and 683). -/
structure SpinOracle where
  lcol : Nat → List Nat
  rcol : Nat → List Nat
  lcolEx : Nat → List Nat
  rcolEx : Nat → List Nat
  costL : Nat → ℚ
  costR : Nat → ℚ
  costLEx : Nat → ℚ
  costREx : Nat → ℚ

/-- Contract of the scipy collaborators for hemisphere sizes `nl`, `nr`:
nearest-neighbour queries return one in-range donor per query point with a
non-negative summed distance, and the assignment solver returns a
permutation of `0..n-1` (bijective assignment) with non-negative cost. -/
def SpinOracle.Valid (o : SpinOracle) (nl nr : Nat) : Prop :=
  ∀ t : Nat,
    (o.lcol t).length = nl ∧ (∀ x ∈ o.lcol t, x < nl) ∧
    (o.rcol t).length = nr ∧ (∀ x ∈ o.rcol t, x < nr) ∧
    (o.lcolEx t).Perm (List.range nl) ∧ (o.rcolEx t).Perm (List.range nr) ∧
    0 ≤ o.costL t ∧ 0 ≤ o.costR t ∧ 0 ≤ o.costLEx t ∧ 0 ≤ o.costREx t

/-- Indices of the coordinates belonging to hemisphere `v`
(`inds[hemiid == v]` for `inds = np.arange(len(coords))`, lines 644-645). -/
def hemiInds (N : Nat) (hemi : List ℤ) (v : ℤ) : List Nat :=
  (List.range N).filter (fun i => hemi.getD i 0 == v)

/-- Fancy-indexed assignment `base[pos] = vals` on a 1-D integer array. -/
def scatterAssign (base : List Nat) (pos : List Nat) (vals : List Nat) : List Nat :=
  (pos.zip vals).foldl (fun acc pv => acc.set pv.1 pv.2) base

/-- Lines 655 and 686-687: `resampled = np.zeros(len(coords))` followed by
`resampled[inds_l] = inds[inds_l][lcol]` and
`resampled[inds_r] = inds[inds_r][rcol]`. -/
def mergeResampled (N : Nat) (indsL indsR : List Nat) (lc rc : List Nat) : List Nat :=
  scatterAssign
    (scatterAssign (List.replicate N 0) indsL (lc.map (fun j => indsL.getD j 0)))
    indsR (rc.map (fun j => indsR.getD j 0))

/-- One candidate generation (lines 655-687): draw a rotation pair (draw
index `t`), run the mode-appropriate solver on each hemisphere, and merge
the per-hemisphere donors into a full-length resampling vector; `ccost` is
the summed left and right distances. -/
def spinCandidate (o : SpinOracle) (exact : Bool) (N : Nat) (indsL indsR : List Nat)
    (t : Nat) : List Nat × ℚ :=
  if exact then
    (mergeResampled N indsL indsR (o.lcolEx t) (o.rcolEx t), o.costLEx t + o.costREx t)
  else
    (mergeResampled N indsL indsR (o.lcol t) (o.rcol t), o.costL t + o.costR t)

/-- Duplicate test (lines 689-693): with checking enabled, a candidate is
a duplicate when it equals a previously accepted column or the identity
mapping `inds`. -/
def isDuplicate (chk : Bool) (cand : List Nat) (prev : List (List Nat))
    (inds : List Nat) : Bool :=
  chk && (prev.any (fun c => c == cand) || cand == inds)

/-- The retry loop for one column (lines 652-693):
`count, duplicated = 0, True; while duplicated and count < 500: ...`.
One recursive call performs one loop iteration; `fuel` is the number of
additional iterations the `count < 500` guard still permits, so the
canonical entry is `fuel = 499, count = 0` (at `fuel = 0` the iteration
runs, `count` reaches 500, and the loop exits regardless of the duplicate
flag).  Returns `(count, resampled, ccost, next draw index)`. -/
def spinTrial (o : SpinOracle) (exact chk : Bool) (N : Nat)
    (indsL indsR inds : List Nat) (prev : List (List Nat)) :
    Nat → Nat → Nat → Nat × List Nat × ℚ × Nat
  | 0, t, count =>
    let c := spinCandidate o exact N indsL indsR t
    (count + 1, c.1, c.2, t + 1)
  | fuel + 1, t, count =>
    let c := spinCandidate o exact N indsL indsR t
    if isDuplicate chk c.1 prev inds = true ∧ count + 1 < 500 then
      spinTrial o exact chk N indsL indsR inds prev fuel (t + 1) (count + 1)
    else
      (count + 1, c.1, c.2, t + 1)

/-- Loop state of the `for n in range(n_rotate)` loop (lines 649-704).
`counts` and `warnCount` are ghost fields: `counts` records each accepted
column's final `count` and `warnCount` the number of `warnings.warn` calls
actually executed (lines 698-701). -/
structure SpinState where
  cols : List (List Nat)
  costs : List ℚ
  counts : List Nat
  warned : Bool
  warnCount : Nat
  t : Nat
deriving DecidableEq, Repr

/-- The outer rotation loop (lines 650-704): for each column run the retry
loop against the columns accepted so far, emit the one-time warning when
`count == 500 and not warned`, and append the accepted column and cost. -/
def spinLoop (o : SpinOracle) (exact chk : Bool) (N : Nat)
    (indsL indsR inds : List Nat) : Nat → SpinState → SpinState
  | 0, st => st
  | m + 1, st =>
    let r := spinTrial o exact chk N indsL indsR inds st.cols 499 st.t 0
    spinLoop o exact chk N indsL indsR inds m
      { cols := st.cols ++ [r.2.1]
        costs := st.costs ++ [r.2.2.1]
        counts := st.counts ++ [r.1]
        warned := st.warned || (r.1 == 500)
        warnCount := st.warnCount + (if r.1 == 500 ∧ st.warned = false then 1 else 0)
        t := r.2.2.2 }

/-- Observable result of a successful `gen_spinsamples` call: the
resampling matrix as its list of `n_rotate` columns (each of length `N`),
the cost vector, and the ghost attempt counts / warning count. -/
structure SpinResult where
  spinsamples : List (List Nat)
  cost : List ℚ
  counts : List Nat
  warnCount : Nat
deriving DecidableEq, Repr

/-- `gen_spinsamples` (stats.py lines 513-706) for a fixed oracle: validate
the inputs, split indices by hemisphere, and run the rotation loop. -/
def gen_spinsamples (o : SpinOracle) (coords : NpArray2) (hemiid : List ℚ)
    (n_rotate : Nat) (check_duplicates exact : Bool) : Except SpinError SpinResult :=
  match validateSpin coords hemiid with
  | .error e => .error e
  | .ok hemi =>
    let N := coords.nrows
    let inds := List.range N
    let indsL := hemiInds N hemi 0
    let indsR := hemiInds N hemi 1
    let st := spinLoop o exact check_duplicates N indsL indsR inds n_rotate
      ⟨[], [], [], false, 0, 0⟩
    .ok ⟨st.cols, st.costs, st.counts, st.warnCount⟩

/-- Ambient state of numpy's global random stream, used by
`check_random_state` when `seed is None`. -/
structure RngWorld where
  pos : Nat

/-- Model of `seed = check_random_state(seed)` (line 613) composed with the
deterministic scipy geometry on the call's coordinates: an integer seed
yields the oracle determined by the seed and the coordinates alone, while
`seed = None` draws the oracle from the ambient global stream and advances
it.  `mkSeeded` and `mkGlobal` are the (arbitrary, fixed) deterministic
stream constructors. -/
def checkRandomStateOracle (mkSeeded : NpArray2 → Nat → SpinOracle)
    (mkGlobal : NpArray2 → Nat → SpinOracle) (coords : NpArray2) :
    Option Nat → RngWorld → SpinOracle × RngWorld
  | some s, w => (mkSeeded coords s, w)
  | none, w => (mkGlobal coords w.pos, ⟨w.pos + 1⟩)

/-- `gen_spinsamples` as called by a user: the oracle is obtained from the
`seed` argument via `check_random_state`, and the ambient random world is
threaded through. -/
def gen_spinsamples_seeded (mkSeeded mkGlobal : NpArray2 → Nat → SpinOracle)
    (seed : Option Nat) (w : RngWorld) (coords : NpArray2) (hemiid : List ℚ)
    (n_rotate : Nat) (check_duplicates exact : Bool) :
    (Except SpinError SpinResult) × RngWorld :=
  let ow := checkRandomStateOracle mkSeeded mkGlobal coords seed w
  (gen_spinsamples ow.1 coords hemiid n_rotate check_duplicates exact, ow.2)

/-- The reflection matrix of `_gen_rotation` (stats.py line 499):
`np.array([[-1, 0, 0], [0, 1, 0], [0, 0, 1]])`, reflecting across the Y-Z
plane. -/
def reflect : Matrix (Fin 3) (Fin 3) ℝ := !![-1, 0, 0; 0, 1, 0; 0, 0, 1]

/-- The pair returned by `np.linalg.qr` on the 3x3 standard-normal draw
`rs.normal(size=(3, 3))` (line 502): the random draw composed with the QR
factorization is an external collaborator, so one call of `_gen_rotation`
is modelled as a function of these two factors. -/
structure QrPair where
  q : Matrix (Fin 3) (Fin 3) ℝ
  r : Matrix (Fin 3) (Fin 3) ℝ

open Classical in
/-- `_gen_rotation` (stats.py lines 481-510): sign-fix the orthogonal
factor by the signs of the triangular factor's diagonal (line 503,
`np.sign` is `Real.sign`), negate the first column if the determinant is
negative (lines 504-505), and reflect across the Y-Z plane for the right
hemisphere (line 508). -/
noncomputable def gen_rotation (qr : QrPair) :
    Matrix (Fin 3) (Fin 3) ℝ × Matrix (Fin 3) (Fin 3) ℝ :=
  let rotate_l := qr.q * Matrix.diagonal (fun i => Real.sign (qr.r i i))
  let rotate_l2 :=
    if rotate_l.det < 0 then
      Matrix.of (fun i j => if j = 0 then -(rotate_l i j) else rotate_l i j)
    else rotate_l
  (rotate_l2, reflect * rotate_l2 * reflect)

/-- Mean of a 1-D float array, `np.mean` (division by zero only arises on
empty input, which every caller guards). -/
def listMean (l : List ℚ) : ℚ := l.sum / (l.length : ℚ)

/-- The null statistic of one `permtest_1samp` permutation (lines 230-231):
the mean of `zeroed` with each entry multiplied by the drawn sign
`flips p i ∈ {-1, 1}` (`rs.choice([-1, 1], size=zeroed.shape)`). -/
def flippedMean (a : List ℚ) (popmean : ℚ) (flips : Nat → Nat → ℚ) (p : Nat) : ℚ :=
  listMean ((a.map (fun x => x - popmean)).mapIdx (fun i z => z * flips p i))

/-- `permtest_1samp` (stats.py lines 148-235) for 1-D `a` (`axis = 0`) and
scalar `popmean`, with the per-permutation sign draws supplied by the tape
`flips`.  Returns `none` for the `(nan, nan)` empty-input path, otherwise
`(stat, pvalue)`.  `permutations` starts at 1 (`np.ones`) and the final
division is by `n_perm + 1` (lines 228-233). -/
def permtest_1samp (a : List ℚ) (popmean : ℚ) (n_perm : Nat)
    (flips : Nat → Nat → ℚ) : Option (ℚ × ℚ) :=
  if a.length = 0 then none
  else
    let true_mean := listMean (a.map (fun x => x - popmean))
    let abs_mean := |true_mean|
    let permutations := (List.range n_perm).foldl
      (fun acc p => acc + (if abs_mean ≤ |flippedMean a popmean flips p| then (1 : ℚ) else 0))
      1
    some (true_mean, permutations / ((n_perm : ℚ) + 1))

/-- The `ValueError` raised by `permtest_rel` / `permtest_pearsonr` when the
two samples disagree in length (lines 292-293, 394-395). -/
inductive PermError where
  | lengthMismatch : PermError
deriving DecidableEq, Repr

/-- The null statistic of one `permtest_rel` permutation (lines 311-314):
per position `i` the pair `(a i, b i)` is kept or swapped according to the
argsort of the random draws (`swaps p i = true` models argsort `[1, 0]`),
and the mean of `second - first` (`np.diff` along the stacked axis) is
taken. -/
def swappedDiffMean (a b : List ℚ) (swaps : Nat → Nat → Bool) (p : Nat) : ℚ :=
  listMean ((a.zip b).mapIdx (fun i q => if swaps p i then q.1 - q.2 else q.2 - q.1))

/-- `permtest_rel` (stats.py lines 238-319) for 1-D `a`, `b` (`axis = 0`),
with the per-permutation swap decisions supplied by the tape `swaps`.
Raises on length mismatch (line 292), returns the `(nan, nan)` path as
`none` on empty input, otherwise `(mean of b - a, pvalue)`. -/
def permtest_rel (a b : List ℚ) (n_perm : Nat) (swaps : Nat → Nat → Bool) :
    Except PermError (Option (ℚ × ℚ)) :=
  if a.length ≠ b.length then .error .lengthMismatch
  else if a.length = 0 then .ok none
  else
    let true_diff := listMean ((a.zip b).map (fun q => q.2 - q.1))
    let abs_true := |true_diff|
    let permutations := (List.range n_perm).foldl
      (fun acc p => acc + (if abs_true ≤ |swappedDiffMean a b swaps p| then (1 : ℚ) else 0))
      1
    .ok (some (true_diff, permutations / ((n_perm : ℚ) + 1)))

/-- `scipy.stats.zscore(-, ddof=1)` on a 1-D float array: centre by the
mean and divide by the sample standard deviation (square root of the sum
of squared deviations over `n - 1`). -/
noncomputable def zscore (l : List ℝ) : List ℝ :=
  let m := l.sum / (l.length : ℝ)
  let sd := Real.sqrt ((l.map (fun x => (x - m) ^ 2)).sum / ((l.length : ℝ) - 1))
  l.map (fun x => (x - m) / sd)

/-- The correlation computed by `efficient_pearsonr` (stats.py lines
469-472) on 1-D inputs: sum of the products of the two z-scored vectors
over `n - 1`, clipped to `[-1, 1]` (`np.clip`). -/
noncomputable def pearsonCorr (a b : List ℝ) : ℝ :=
  max (-1) (min 1 ((((zscore a).zip (zscore b)).map (fun q => q.1 * q.2)).sum
    / ((a.length : ℝ) - 1)))

/-- `efficient_pearsonr` (stats.py lines 423-478), correlation component,
for 1-D inputs: raises on length mismatch (line 459), `none` for the
`(nan, nan)` empty path, otherwise the clipped correlation.  (The
accompanying p-value, computed from `scipy.special.btdtr`, is outside the
scope of the claims and not modelled.) -/
noncomputable def efficient_pearsonr (a b : List ℝ) : Except PermError (Option ℝ) :=
  if a.length ≠ b.length then .error .lengthMismatch
  else if a.length = 0 then .ok none
  else .ok (some (pearsonCorr a b))

/-- The null statistic of one `permtest_pearsonr` permutation (lines
412-416): correlate the permuted `a` (`a[rs.permutation(len(a))]`, the
drawn permutation supplied by the tape `perms`) with `b`. -/
noncomputable def permCorr (a b : List ℝ) (perms : Nat → List Nat) (p : Nat) : ℝ :=
  pearsonCorr ((perms p).map (fun j => a.getD j 0)) b

open Classical in
/-- `permtest_pearsonr` (stats.py lines 322-420) for 1-D `a`, `b`
(`axis = 0`, default `resamples=None`), with the per-permutation index
permutations supplied by the tape `perms`.  Raises on length mismatch
(line 394), returns the `(nan, nan)` path as `none` on empty input,
otherwise `(corr, pvalue)` with `permutations` starting at 1 and the final
division by `n_perm + 1` (lines 409-418). -/
noncomputable def permtest_pearsonr (a b : List ℝ) (n_perm : Nat)
    (perms : Nat → List Nat) : Except PermError (Option (ℝ × ℝ)) :=
  if a.length ≠ b.length then .error .lengthMismatch
  else if a.length = 0 then .ok none
  else
    let true_corr := pearsonCorr a b
    let abs_true := |true_corr|
    let permutations := (List.range n_perm).foldl
      (fun acc p => acc + (if abs_true ≤ |permCorr a b perms p| then (1 : ℝ) else 0))
      1
    .ok (some (true_corr, permutations / ((n_perm : ℝ) + 1)))

/-- Number of permutations whose null statistic is at least the observed
statistic in absolute value — the "counter" of the specification's p-value
formula, for a rational-valued statistic. -/
def nullCount (n_perm : Nat) (nullstat : Nat → ℚ) (obs : ℚ) : Nat :=
  ((Finset.range n_perm).filter (fun p => |obs| ≤ |nullstat p|)).card

open Classical in
/-- Number of permutations whose null statistic is at least the observed
statistic in absolute value, for a real-valued statistic. -/
noncomputable def nullCountR (n_perm : Nat) (nullstat : Nat → ℝ) (obs : ℝ) : Nat :=
  ((Finset.range n_perm).filter (fun p => |obs| ≤ |nullstat p|)).card

/-- An oracle whose solver always answers with the in-order assignment
(`0, 1, ..., n-1` on each hemisphere) at zero cost; it satisfies the
collaborator contract for hemisphere sizes `nl`, `nr`. -/
def constOracle (nl nr : Nat) : SpinOracle :=
  ⟨fun _ => List.range nl, fun _ => List.range nr,
   fun _ => List.range nl, fun _ => List.range nr,
   fun _ => 0, fun _ => 0, fun _ => 0, fun _ => 0⟩

/-- Concrete coordinates of shape (2, 3). -/
def cw2 : NpArray2 := ⟨2, 3, fun _ _ => 0⟩

/-- Concrete coordinates of shape (3, 3). -/
def cw3 : NpArray2 := ⟨3, 3, fun _ _ => 0⟩

/-- Concrete coordinates of shape (4, 3). -/
def cw4 : NpArray2 := ⟨4, 3, fun _ _ => 0⟩

/-- Concrete coordinates of shape (5, 2) — the invalid-shape scenario. -/
def cwBad : NpArray2 := ⟨5, 2, fun _ _ => 0⟩

/-- An oracle whose nearest-neighbour queries assign donor 0 to both query
points of each two-point hemisphere — the repeated-donor scenario that
approximate mode permits. -/
def oRep : SpinOracle :=
  ⟨fun _ => [0, 0], fun _ => [0, 0],
   fun _ => List.range 2, fun _ => List.range 2,
   fun _ => 0, fun _ => 0, fun _ => 0, fun _ => 0⟩

/-- An oracle (for hemisphere sizes 2 and 1) whose first 499 rotation
draws all produce the identity assignment and whose 500th draw produces a
fresh one: the retry loop then runs all 500 attempts and its final
candidate is *not* a duplicate. -/
def oBoundary : SpinOracle :=
  ⟨fun t => if t < 499 then [0, 1] else [1, 0], fun _ => [0],
   fun _ => List.range 2, fun _ => List.range 1,
   fun _ => 0, fun _ => 0, fun _ => 0, fun _ => 0⟩

lemma getD_set_self (l : List Nat) (p v : Nat) (h : p < l.length) :
    (l.set p v).getD p 0 = v := by
  rw [List.getD_eq_getElem?_getD, List.getElem?_set_self h]
  rfl

lemma getD_set_ne (l : List Nat) (p q v : Nat) (h : p ≠ q) :
    (l.set p v).getD q 0 = l.getD q 0 := by
  rw [List.getD_eq_getElem?_getD, List.getElem?_set_ne h, ← List.getD_eq_getElem?_getD]

lemma scatterAssign_nil_vals (base : List Nat) (pos : List Nat) :
    scatterAssign base pos [] = base := by
  cases pos <;> rfl

lemma scatterAssign_cons (base : List Nat) (p : Nat) (ps : List Nat) (v : Nat)
    (vs : List Nat) :
    scatterAssign base (p :: ps) (v :: vs) = scatterAssign (base.set p v) ps vs := rfl

lemma scatterAssign_length (pos : List Nat) :
    ∀ (vals base : List Nat), (scatterAssign base pos vals).length = base.length := by
  induction pos with
  | nil => intro vals base; rfl
  | cons p ps ih =>
    intro vals base
    cases vals with
    | nil => rw [scatterAssign_nil_vals]
    | cons v vs => rw [scatterAssign_cons, ih, List.length_set]

lemma scatterAssign_getD_notMem (pos : List Nat) :
    ∀ (vals base : List Nat) (q : Nat), q ∉ pos →
      (scatterAssign base pos vals).getD q 0 = base.getD q 0 := by
  induction pos with
  | nil => intro vals base q _; rfl
  | cons p ps ih =>
    intro vals base q hq
    have h1 : ¬(q = p ∨ q ∈ ps) := by simpa [List.mem_cons] using hq
    push_neg at h1
    cases vals with
    | nil => rw [scatterAssign_nil_vals]
    | cons v vs =>
      rw [scatterAssign_cons, ih vs _ q h1.2, getD_set_ne _ _ _ _ (Ne.symm h1.1)]

lemma scatterAssign_getD_mem (pos : List Nat) :
    ∀ (vals base : List Nat), pos.Nodup → vals.length = pos.length →
      ∀ i, i < pos.length → pos.getD i 0 < base.length →
        (scatterAssign base pos vals).getD (pos.getD i 0) 0 = vals.getD i 0 := by
  induction pos with
  | nil => intro vals base _ _ i hi; simp at hi
  | cons p ps ih =>
    intro vals base hnd hlen i hi hb
    cases vals with
    | nil => simp at hlen
    | cons v vs =>
      cases i with
      | zero =>
        have hp : p ∉ ps := (List.nodup_cons.mp hnd).1
        rw [List.getD_cons_zero, scatterAssign_cons, scatterAssign_getD_notMem ps vs _ p hp]
        exact getD_set_self base p v (by simpa using hb)
      | succ j =>
        rw [List.getD_cons_succ, List.getD_cons_succ, scatterAssign_cons]
        exact ih vs (base.set p v) (List.nodup_cons.mp hnd).2 (by simpa using hlen) j
          (by simpa using hi) (by simpa [List.length_set] using hb)

lemma getD_map_lt (f : Nat → Nat) (l : List Nat) (i : Nat) (hi : i < l.length) :
    (l.map f).getD i 0 = f (l.getD i 0) := by
  rw [List.getD_eq_getElem _ _ (by simpa using hi), List.getD_eq_getElem _ _ hi,
    List.getElem_map]

lemma map_getD_range (l : List Nat) :
    (List.range l.length).map (fun i => l.getD i 0) = l := by
  apply List.ext_getElem (by simp)
  intro n h1 h2
  rw [List.getElem_map, List.getElem_range, List.getD_eq_getElem _ _ h2]

lemma getD_mem_of_lt (l : List Nat) (i : Nat) (hi : i < l.length) : l.getD i 0 ∈ l := by
  rw [List.getD_eq_getElem _ _ hi]
  exact List.getElem_mem hi

lemma mem_hemiInds (N : Nat) (hemi : List ℤ) (v : ℤ) (i : Nat) :
    i ∈ hemiInds N hemi v ↔ i < N ∧ hemi.getD i 0 = v := by
  simp [hemiInds, List.mem_filter, List.mem_range]

lemma hemiInds_nodup (N : Nat) (hemi : List ℤ) (v : ℤ) : (hemiInds N hemi v).Nodup :=
  List.Nodup.filter _ (List.nodup_range N)

lemma hemiInds_lt (N : Nat) (hemi : List ℤ) (v : ℤ) :
    ∀ x ∈ hemiInds N hemi v, x < N := by
  intro x hx
  exact ((mem_hemiInds N hemi v x).mp hx).1

lemma hemiInds_notMem (N : Nat) (hemi : List ℤ) (i : Nat) (hi : i ∈ hemiInds N hemi 0) :
    i ∉ hemiInds N hemi 1 := by
  intro hr
  have h0 := ((mem_hemiInds N hemi 0 i).mp hi).2
  have h1 := ((mem_hemiInds N hemi 1 i).mp hr).2
  rw [h0] at h1
  cases h1

lemma mergeResampled_length (N : Nat) (indsL indsR lc rc : List Nat) :
    (mergeResampled N indsL indsR lc rc).length = N := by
  rw [mergeResampled, scatterAssign_length, scatterAssign_length, List.length_replicate]

lemma mergeResampled_getD_left (N : Nat) (hemi : List ℤ) (lc rc : List Nat)
    (hlen : lc.length = (hemiInds N hemi 0).length) (n : Nat)
    (hn : n < (hemiInds N hemi 0).length) :
    (mergeResampled N (hemiInds N hemi 0) (hemiInds N hemi 1) lc rc).getD
        ((hemiInds N hemi 0).getD n 0) 0
      = (hemiInds N hemi 0).getD (lc.getD n 0) 0 := by
  rw [mergeResampled]
  rw [scatterAssign_getD_notMem _ _ _ _
    (hemiInds_notMem N hemi _ (getD_mem_of_lt _ n hn))]
  rw [scatterAssign_getD_mem _ _ _ (hemiInds_nodup N hemi 0)
    (by rw [List.length_map, hlen]) n hn
    (by rw [List.length_replicate]; exact hemiInds_lt N hemi 0 _ (getD_mem_of_lt _ n hn))]
  exact getD_map_lt _ lc n (by rw [hlen]; exact hn)

lemma mergeResampled_getD_right (N : Nat) (hemi : List ℤ) (lc rc : List Nat)
    (hlen : rc.length = (hemiInds N hemi 1).length) (n : Nat)
    (hn : n < (hemiInds N hemi 1).length) :
    (mergeResampled N (hemiInds N hemi 0) (hemiInds N hemi 1) lc rc).getD
        ((hemiInds N hemi 1).getD n 0) 0
      = (hemiInds N hemi 1).getD (rc.getD n 0) 0 := by
  rw [mergeResampled]
  rw [scatterAssign_getD_mem _ _ _ (hemiInds_nodup N hemi 1)
    (by rw [List.length_map, hlen]) n hn
    (by rw [scatterAssign_length, List.length_replicate]
        exact hemiInds_lt N hemi 1 _ (getD_mem_of_lt _ n hn))]
  exact getD_map_lt _ rc n (by rw [hlen]; exact hn)

lemma mergeResampled_left_map (N : Nat) (hemi : List ℤ) (lc rc : List Nat)
    (hlen : lc.length = (hemiInds N hemi 0).length) :
    (hemiInds N hemi 0).map
        (fun j => (mergeResampled N (hemiInds N hemi 0) (hemiInds N hemi 1) lc rc).getD j 0)
      = lc.map (fun k => (hemiInds N hemi 0).getD k 0) := by
  apply List.ext_getElem (by rw [List.length_map, List.length_map, hlen])
  intro n h1 h2
  rw [List.getElem_map, List.getElem_map]
  rw [← List.getD_eq_getElem (hemiInds N hemi 0) 0 (by simpa using h1)]
  rw [← List.getD_eq_getElem lc 0 (by simpa using h2)]
  exact mergeResampled_getD_left N hemi lc rc hlen n (by simpa using h1)

lemma mergeResampled_right_map (N : Nat) (hemi : List ℤ) (lc rc : List Nat)
    (hlen : rc.length = (hemiInds N hemi 1).length) :
    (hemiInds N hemi 1).map
        (fun j => (mergeResampled N (hemiInds N hemi 0) (hemiInds N hemi 1) lc rc).getD j 0)
      = rc.map (fun k => (hemiInds N hemi 1).getD k 0) := by
  apply List.ext_getElem (by rw [List.length_map, List.length_map, hlen])
  intro n h1 h2
  rw [List.getElem_map, List.getElem_map]
  rw [← List.getD_eq_getElem (hemiInds N hemi 1) 0 (by simpa using h1)]
  rw [← List.getD_eq_getElem rc 0 (by simpa using h2)]
  exact mergeResampled_getD_right N hemi lc rc hlen n (by simpa using h1)

lemma perm_map_getD_self (l : List Nat) (lc : List Nat)
    (hp : lc.Perm (List.range l.length)) :
    (lc.map (fun k => l.getD k 0)).Perm l := by
  have h1 := List.Perm.map (fun k => l.getD k 0) hp
  rw [map_getD_range l] at h1
  exact h1

lemma mergeResampled_getD_mem_left (N : Nat) (hemi : List ℤ) (lc rc : List Nat)
    (hlen : lc.length = (hemiInds N hemi 0).length)
    (hbnd : ∀ x ∈ lc, x < (hemiInds N hemi 0).length) (j : Nat)
    (hj : j ∈ hemiInds N hemi 0) :
    (mergeResampled N (hemiInds N hemi 0) (hemiInds N hemi 1) lc rc).getD j 0
      ∈ hemiInds N hemi 0 := by
  obtain ⟨n, hn, hj2⟩ := List.getElem_of_mem hj
  rw [← hj2, ← List.getD_eq_getElem _ 0 hn, mergeResampled_getD_left N hemi lc rc hlen n hn]
  exact getD_mem_of_lt _ _ (hbnd _ (getD_mem_of_lt lc n (by rw [hlen]; exact hn)))

lemma mergeResampled_getD_mem_right (N : Nat) (hemi : List ℤ) (lc rc : List Nat)
    (hlen : rc.length = (hemiInds N hemi 1).length)
    (hbnd : ∀ x ∈ rc, x < (hemiInds N hemi 1).length) (j : Nat)
    (hj : j ∈ hemiInds N hemi 1) :
    (mergeResampled N (hemiInds N hemi 0) (hemiInds N hemi 1) lc rc).getD j 0
      ∈ hemiInds N hemi 1 := by
  obtain ⟨n, hn, hj2⟩ := List.getElem_of_mem hj
  rw [← hj2, ← List.getD_eq_getElem _ 0 hn, mergeResampled_getD_right N hemi lc rc hlen n hn]
  exact getD_mem_of_lt _ _ (hbnd _ (getD_mem_of_lt rc n (by rw [hlen]; exact hn)))

lemma spinCandidate_length (o : SpinOracle) (exact : Bool) (N : Nat)
    (iL iR : List Nat) (t : Nat) :
    ((spinCandidate o exact N iL iR t).1).length = N := by
  cases exact <;> simp [spinCandidate, mergeResampled_length]

lemma spinCandidate_cost_nonneg (o : SpinOracle) (exact : Bool) (N nl nr : Nat)
    (iL iR : List Nat) (t : Nat) (hv : o.Valid nl nr) :
    0 ≤ (spinCandidate o exact N iL iR t).2 := by
  obtain ⟨-, -, -, -, -, -, h7, h8, h9, h10⟩ := hv t
  cases exact
  · simpa [spinCandidate] using add_nonneg h7 h8
  · simpa [spinCandidate] using add_nonneg h9 h10

lemma spinCandidate_mem_left (o : SpinOracle) (exact : Bool) (N : Nat) (hemi : List ℤ)
    (t : Nat)
    (hv : o.Valid (hemiInds N hemi 0).length (hemiInds N hemi 1).length) (j : Nat)
    (hj : j ∈ hemiInds N hemi 0) :
    ((spinCandidate o exact N (hemiInds N hemi 0) (hemiInds N hemi 1) t).1).getD j 0
      ∈ hemiInds N hemi 0 := by
  obtain ⟨h1, h2, -, -, h5, -, -⟩ := hv t
  cases exact
  · simp only [spinCandidate, Bool.false_eq_true, if_false]
    exact mergeResampled_getD_mem_left N hemi _ _ h1 h2 j hj
  · simp only [spinCandidate, if_true]
    refine mergeResampled_getD_mem_left N hemi _ _ ?_ ?_ j hj
    · rw [h5.length_eq, List.length_range]
    · intro x hx
      simpa using h5.mem_iff.mp hx

lemma spinCandidate_mem_right (o : SpinOracle) (exact : Bool) (N : Nat) (hemi : List ℤ)
    (t : Nat)
    (hv : o.Valid (hemiInds N hemi 0).length (hemiInds N hemi 1).length) (j : Nat)
    (hj : j ∈ hemiInds N hemi 1) :
    ((spinCandidate o exact N (hemiInds N hemi 0) (hemiInds N hemi 1) t).1).getD j 0
      ∈ hemiInds N hemi 1 := by
  obtain ⟨-, -, h3, h4, -, h6, -⟩ := hv t
  cases exact
  · simp only [spinCandidate, Bool.false_eq_true, if_false]
    exact mergeResampled_getD_mem_right N hemi _ _ h3 h4 j hj
  · simp only [spinCandidate, if_true]
    refine mergeResampled_getD_mem_right N hemi _ _ ?_ ?_ j hj
    · rw [h6.length_eq, List.length_range]
    · intro x hx
      simpa using h6.mem_iff.mp hx

lemma spinCandidate_exact_left_perm (o : SpinOracle) (N : Nat) (hemi : List ℤ) (t : Nat)
    (hv : o.Valid (hemiInds N hemi 0).length (hemiInds N hemi 1).length) :
    ((hemiInds N hemi 0).map
        (fun j => ((spinCandidate o true N (hemiInds N hemi 0) (hemiInds N hemi 1) t).1).getD j 0)).Perm
      (hemiInds N hemi 0) := by
  obtain ⟨-, -, -, -, h5, -, -⟩ := hv t
  simp only [spinCandidate, if_true]
  rw [mergeResampled_left_map N hemi _ _ (by rw [h5.length_eq, List.length_range])]
  exact perm_map_getD_self _ _ h5

lemma spinCandidate_exact_right_perm (o : SpinOracle) (N : Nat) (hemi : List ℤ) (t : Nat)
    (hv : o.Valid (hemiInds N hemi 0).length (hemiInds N hemi 1).length) :
    ((hemiInds N hemi 1).map
        (fun j => ((spinCandidate o true N (hemiInds N hemi 0) (hemiInds N hemi 1) t).1).getD j 0)).Perm
      (hemiInds N hemi 1) := by
  obtain ⟨-, -, -, -, -, h6, -⟩ := hv t
  simp only [spinCandidate, if_true]
  rw [mergeResampled_right_map N hemi _ _ (by rw [h6.length_eq, List.length_range])]
  exact perm_map_getD_self _ _ h6

lemma spinTrial_nocheck (o : SpinOracle) (exact : Bool) (N : Nat)
    (iL iR inds : List Nat) (prev : List (List Nat)) (fuel t count : Nat) :
    spinTrial o exact false N iL iR inds prev fuel t count
      = (count + 1, (spinCandidate o exact N iL iR t).1,
         (spinCandidate o exact N iL iR t).2, t + 1) := by
  cases fuel with
  | zero => rfl
  | succ f => simp [spinTrial, isDuplicate]

lemma spinTrial_spec (o : SpinOracle) (exact chk : Bool) (N : Nat)
    (iL iR inds : List Nat) (prev : List (List Nat)) :
    ∀ (fuel t count : Nat), ∃ s c,
      spinTrial o exact chk N iL iR inds prev fuel t count
        = (c, (spinCandidate o exact N iL iR s).1,
           (spinCandidate o exact N iL iR s).2, s + 1) := by
  intro fuel
  induction fuel with
  | zero => intro t count; exact ⟨t, count + 1, rfl⟩
  | succ f ih =>
    intro t count
    by_cases h : isDuplicate chk (spinCandidate o exact N iL iR t).1 prev inds = true
        ∧ count + 1 < 500
    · obtain ⟨s, c, hs⟩ := ih (t + 1) (count + 1)
      refine ⟨s, c, ?_⟩
      rw [spinTrial, if_pos h]
      exact hs
    · refine ⟨t, count + 1, ?_⟩
      rw [spinTrial, if_neg h]

lemma spinLoop_cols_spec (o : SpinOracle) (exact chk : Bool) (N : Nat)
    (iL iR inds : List Nat) :
    ∀ (m : Nat) (st : SpinState),
      (∀ c ∈ st.cols, ∃ s, c = (spinCandidate o exact N iL iR s).1) →
      (∀ x ∈ st.costs, ∃ s, x = (spinCandidate o exact N iL iR s).2) →
      (∀ c ∈ (spinLoop o exact chk N iL iR inds m st).cols,
          ∃ s, c = (spinCandidate o exact N iL iR s).1) ∧
      (∀ x ∈ (spinLoop o exact chk N iL iR inds m st).costs,
          ∃ s, x = (spinCandidate o exact N iL iR s).2) := by
  intro m
  induction m with
  | zero => intro st h1 h2; exact ⟨h1, h2⟩
  | succ k ih =>
    intro st h1 h2
    obtain ⟨s, c, hr⟩ := spinTrial_spec o exact chk N iL iR inds st.cols 499 st.t 0
    rw [spinLoop, hr]
    apply ih
    · intro col hcol
      rcases List.mem_append.mp hcol with hin | hone
      · exact h1 col hin
      · exact ⟨s, by simpa using hone⟩
    · intro x hx
      rcases List.mem_append.mp hx with hin | hone
      · exact h2 x hin
      · exact ⟨s, by simpa using hone⟩

lemma spinLoop_lengths (o : SpinOracle) (exact chk : Bool) (N : Nat)
    (iL iR inds : List Nat) :
    ∀ (m : Nat) (st : SpinState),
      ((spinLoop o exact chk N iL iR inds m st).cols.length = st.cols.length + m) ∧
      ((spinLoop o exact chk N iL iR inds m st).costs.length = st.costs.length + m) := by
  intro m
  induction m with
  | zero => intro st; exact ⟨rfl, rfl⟩
  | succ k ih =>
    intro st
    rw [spinLoop]
    obtain ⟨hc, hx⟩ := ih _
    constructor
    · rw [hc]; simp; omega
    · rw [hx]; simp; omega

lemma spinLoop_warn_inv (o : SpinOracle) (exact chk : Bool) (N : Nat)
    (iL iR inds : List Nat) :
    ∀ (m : Nat) (st : SpinState), st.warnCount ≤ 1 →
      (st.warned = true ↔ st.warnCount = 1) →
      (st.warned = true ↔ 500 ∈ st.counts) →
      ((spinLoop o exact chk N iL iR inds m st).warnCount ≤ 1 ∧
       ((spinLoop o exact chk N iL iR inds m st).warnCount = 1 ↔
         500 ∈ (spinLoop o exact chk N iL iR inds m st).counts)) := by
  intro m
  induction m with
  | zero =>
    intro st h1 h2 h3
    exact ⟨h1, (h2.symm.trans h3)⟩
  | succ k ih =>
    intro st h1 h2 h3
    rw [spinLoop]
    set cnt := (spinTrial o exact chk N iL iR inds st.cols 499 st.t 0).1 with hcnt
    apply ih
    · by_cases hw : st.warned = true
      · have : st.warnCount = 1 := h2.mp hw
        simp [hw, this]
      · have hw0 : st.warned = false := by
          cases hse : st.warned
          · rfl
          · exact absurd hse hw
        have : st.warnCount = 0 := by
          have := (not_iff_not.mpr h2).mp hw
          omega
        by_cases hc : cnt == 500
        · simp [hw0, this, hc]
        · simp [hw0, this, hc]
    · by_cases hw : st.warned = true
      · have h2c : st.warnCount = 1 := h2.mp hw
        constructor
        · intro h
          simp [hw, h2c]
        · intro h
          simp [hw]
      · have hw0 : st.warned = false := by
          cases hse : st.warned
          · rfl
          · exact absurd hse hw
        have h2c : st.warnCount = 0 := by
          have := (not_iff_not.mpr h2).mp hw
          omega
        by_cases hc : (cnt == 500) = true
        · simp [hw0, h2c, hc]
        · simp [hw0, h2c, hc]
    · by_cases hw : st.warned = true
      · simp [hw, List.mem_append, h3.mp hw]
      · have hw0 : st.warned = false := by
          cases hse : st.warned
          · rfl
          · exact absurd hse hw
        have h3c : 500 ∉ st.counts := fun hm => hw (h3.mpr hm)
        by_cases hc : (cnt == 500) = true
        · simp only [hw0, List.mem_append, hc, Bool.false_or, List.mem_singleton]
          constructor
          · intro h
            exact Or.inr (beq_iff_eq.mp hc).symm
          · intro h
            trivial
        · have hne : cnt ≠ 500 := fun h => hc (by simp [h])
          simp only [hw0, List.mem_append, List.mem_singleton]
          constructor
          · intro h
            rw [Bool.or_eq_true] at h
            rcases h with h | h
            · cases h
            · exact absurd (beq_iff_eq.mp h) hne
          · intro h
            rcases h with h | h
            · exact absurd h h3c
            · exact absurd h.symm hne

lemma range_succ_map_shift {α : Type} (f : Nat → α) (t k : Nat) :
    (List.range (k + 1)).map (fun j => f (t + j))
      = f t :: (List.range k).map (fun j => f (t + 1 + j)) := by
  rw [List.range_succ_eq_map, List.map_cons, List.map_map, Nat.add_zero]
  congr 1
  apply List.map_congr_left
  intro j hj
  simp only [Function.comp_apply]
  congr 1
  omega

lemma spinLoop_nocheck (o : SpinOracle) (exact : Bool) (N : Nat)
    (iL iR inds : List Nat) :
    ∀ (m : Nat) (st : SpinState),
      spinLoop o exact false N iL iR inds m st =
        ⟨st.cols ++ (List.range m).map (fun j => (spinCandidate o exact N iL iR (st.t + j)).1),
         st.costs ++ (List.range m).map (fun j => (spinCandidate o exact N iL iR (st.t + j)).2),
         st.counts ++ List.replicate m 1,
         st.warned, st.warnCount, st.t + m⟩ := by
  intro m
  induction m with
  | zero => intro st; simp [spinLoop]
  | succ k ih =>
    intro st
    rw [spinLoop, spinTrial_nocheck, ih]
    simp only [range_succ_map_shift, List.replicate_succ, List.append_assoc,
      List.singleton_append, SpinState.mk.injEq]
    refine ⟨?_, ?_, trivial, by simp, by simp, by omega⟩
    · exact congrArg (st.cols ++ ·)
        (range_succ_map_shift (fun x => (spinCandidate o exact N iL iR x).1) st.t k).symm
    · exact congrArg (st.costs ++ ·)
        (range_succ_map_shift (fun x => (spinCandidate o exact N iL iR x).2) st.t k).symm

lemma validateSpin_ok (coords : NpArray2) (hemiid : List ℚ) (hemi : List ℤ)
    (h : validateSpin coords hemiid = .ok hemi) :
    hemi = hemiid.map truncInt ∧ coords.nrows = hemi.length := by
  simp only [validateSpin] at h
  split_ifs at h with h1 h2 h3
  cases h
  exact ⟨rfl, not_ne_iff.mp h2⟩

lemma gen_spinsamples_ok (o : SpinOracle) (coords : NpArray2) (hemiid : List ℚ)
    (n_rotate : Nat) (chk ex : Bool) (r : SpinResult)
    (hok : gen_spinsamples o coords hemiid n_rotate chk ex = .ok r) :
    validateSpin coords hemiid = .ok (hemiid.map truncInt) ∧
      r = (fun st => (⟨st.cols, st.costs, st.counts, st.warnCount⟩ : SpinResult))
        (spinLoop o ex chk coords.nrows
          (hemiInds coords.nrows (hemiid.map truncInt) 0)
          (hemiInds coords.nrows (hemiid.map truncInt) 1)
          (List.range coords.nrows) n_rotate ⟨[], [], [], false, 0, 0⟩) := by
  unfold gen_spinsamples at hok
  cases hval : validateSpin coords hemiid with
  | error e => rw [hval] at hok; cases hok
  | ok hemi =>
    have hmap : hemi = hemiid.map truncInt := (validateSpin_ok coords hemiid hemi hval).1
    rw [hval] at hok
    subst hmap
    exact ⟨rfl, (Except.ok.inj hok).symm⟩

lemma listMaxZ_all_zero (l : List ℤ) (hne : l ≠ []) (h : ∀ x ∈ l, x = 0) :
    listMaxZ l = some 0 := by
  induction l with
  | nil => cases hne rfl
  | cons x xs ih =>
    cases xs with
    | nil => simp [listMaxZ, h x (by simp)]
    | cons y ys =>
      rw [listMaxZ, ih (by simp) (fun z hz => h z (List.mem_cons_of_mem _ hz))]
      simp [h x (by simp)]

lemma foldl_count (P : Nat → Prop) [DecidablePred P] (n : Nat) (init : ℚ) :
    (List.range n).foldl (fun acc p => acc + (if P p then (1 : ℚ) else 0)) init
      = init + (((Finset.range n).filter P).card : ℚ) := by
  induction n generalizing init with
  | zero => simp
  | succ k ih =>
    rw [List.range_succ, List.foldl_append, ih, Finset.range_succ, Finset.filter_insert]
    by_cases hp : P k
    · rw [if_pos hp, Finset.card_insert_of_not_mem (by simp)]
      simp only [List.foldl_cons, List.foldl_nil, if_pos hp]
      push_cast
      ring
    · rw [if_neg hp]
      simp only [List.foldl_cons, List.foldl_nil, if_neg hp]
      ring

lemma foldl_count_real (P : Nat → Prop) [DecidablePred P] (n : Nat) (init : ℝ) :
    (List.range n).foldl (fun acc p => acc + (if P p then (1 : ℝ) else 0)) init
      = init + (((Finset.range n).filter P).card : ℝ) := by
  induction n generalizing init with
  | zero => simp
  | succ k ih =>
    rw [List.range_succ, List.foldl_append, ih, Finset.range_succ, Finset.filter_insert]
    by_cases hp : P k
    · rw [if_pos hp, Finset.card_insert_of_not_mem (by simp)]
      simp only [List.foldl_cons, List.foldl_nil, if_pos hp]
      push_cast
      ring
    · rw [if_neg hp]
      simp only [List.foldl_cons, List.foldl_nil, if_neg hp]
      ring

lemma constOracle_valid (nl nr : Nat) : (constOracle nl nr).Valid nl nr := by
  intro t
  exact ⟨List.length_range nl, fun x hx => List.mem_range.mp hx,
    List.length_range nr, fun x hx => List.mem_range.mp hx,
    List.Perm.refl _, List.Perm.refl _,
    le_refl 0, le_refl 0, le_refl 0, le_refl 0⟩

lemma oRep_valid : oRep.Valid 2 2 := by
  intro t
  refine ⟨rfl, ?_, rfl, ?_, List.Perm.refl _, List.Perm.refl _,
    le_refl 0, le_refl 0, le_refl 0, le_refl 0⟩
  · intro x hx
    simp [oRep] at hx
    omega
  · intro x hx
    simp [oRep] at hx
    omega

/-- C1: with `exact=True` every column of the resampling matrix, restricted
to each hemisphere's index set, is a bijection of that index set (the list
of donors drawn by the hemisphere's positions is a permutation of the
hemisphere's index list, so each hemisphere index appears exactly once as a
donor); and with `exact=False` a column may contain repeated donor indices
(witnessed by a concrete valid run whose column repeats a donor). -/
theorem gen_spinsamples_exact_bijective (o : SpinOracle) (coords : NpArray2)
    (hemiid : List ℚ) (n_rotate : Nat) (chk : Bool) (r : SpinResult)
    (hok : gen_spinsamples o coords hemiid n_rotate chk true = .ok r)
    (hv : o.Valid (hemiInds coords.nrows (hemiid.map truncInt) 0).length
      (hemiInds coords.nrows (hemiid.map truncInt) 1).length) :
    (∀ col ∈ r.spinsamples,
      ((hemiInds coords.nrows (hemiid.map truncInt) 0).map
          (fun j => col.getD j 0)).Perm (hemiInds coords.nrows (hemiid.map truncInt) 0) ∧
      ((hemiInds coords.nrows (hemiid.map truncInt) 1).map
          (fun j => col.getD j 0)).Perm (hemiInds coords.nrows (hemiid.map truncInt) 1)) ∧
    (∃ (o2 : SpinOracle) (coords2 : NpArray2) (hemiid2 : List ℚ) (r2 : SpinResult),
      o2.Valid (hemiInds coords2.nrows (hemiid2.map truncInt) 0).length
        (hemiInds coords2.nrows (hemiid2.map truncInt) 1).length ∧
      gen_spinsamples o2 coords2 hemiid2 1 true false = .ok r2 ∧
      ∃ col ∈ r2.spinsamples, ¬ col.Nodup) := by
  obtain ⟨hval, hr⟩ := gen_spinsamples_ok o coords hemiid n_rotate chk true r hok
  constructor
  · intro col hcol
    have hcols := (spinLoop_cols_spec o true chk coords.nrows
      (hemiInds coords.nrows (hemiid.map truncInt) 0)
      (hemiInds coords.nrows (hemiid.map truncInt) 1)
      (List.range coords.nrows) n_rotate ⟨[], [], [], false, 0, 0⟩
      (by intro c hc; cases hc) (by intro c hc; cases hc)).1
    rw [hr] at hcol
    obtain ⟨s, rfl⟩ := hcols col hcol
    exact ⟨spinCandidate_exact_left_perm o coords.nrows (hemiid.map truncInt) s hv,
      spinCandidate_exact_right_perm o coords.nrows (hemiid.map truncInt) s hv⟩
  · have hL : (hemiInds cw4.nrows (List.map truncInt [0, 0, 1, 1]) 0).length = 2 := by
      with_unfolding_all rfl
    have hR : (hemiInds cw4.nrows (List.map truncInt [0, 0, 1, 1]) 1).length = 2 := by
      with_unfolding_all rfl
    refine ⟨oRep, cw4, [0, 0, 1, 1], ⟨[[0, 0, 2, 2]], [0], [1], 0⟩, ?_, ?_, ?_⟩
    · rw [hL, hR]
      exact oRep_valid
    · with_unfolding_all rfl
    · exact ⟨[0, 0, 2, 2], by simp, by decide⟩

/-- Witness for C1: the in-order oracle on a two-point input (one point per
hemisphere) satisfies the hypotheses, and the conclusion holds for its
run. -/
theorem gen_spinsamples_exact_bijective_witness :
    (gen_spinsamples (constOracle 1 1) cw2 [0, 1] 1 false true
      = .ok ⟨[[0, 1]], [0], [1], 0⟩) ∧
    ((constOracle 1 1).Valid (hemiInds cw2.nrows (List.map truncInt [0, 1]) 0).length
      (hemiInds cw2.nrows (List.map truncInt [0, 1]) 1).length) ∧
    ((∀ col ∈ (⟨[[0, 1]], [0], [1], 0⟩ : SpinResult).spinsamples,
      ((hemiInds cw2.nrows (List.map truncInt [0, 1]) 0).map
          (fun j => col.getD j 0)).Perm (hemiInds cw2.nrows (List.map truncInt [0, 1]) 0) ∧
      ((hemiInds cw2.nrows (List.map truncInt [0, 1]) 1).map
          (fun j => col.getD j 0)).Perm (hemiInds cw2.nrows (List.map truncInt [0, 1]) 1)) ∧
    (∃ (o2 : SpinOracle) (coords2 : NpArray2) (hemiid2 : List ℚ) (r2 : SpinResult),
      o2.Valid (hemiInds coords2.nrows (hemiid2.map truncInt) 0).length
        (hemiInds coords2.nrows (hemiid2.map truncInt) 1).length ∧
      gen_spinsamples o2 coords2 hemiid2 1 true false = .ok r2 ∧
      ∃ col ∈ r2.spinsamples, ¬ col.Nodup)) := by
  have hok : gen_spinsamples (constOracle 1 1) cw2 [0, 1] 1 false true
      = .ok ⟨[[0, 1]], [0], [1], 0⟩ := by with_unfolding_all rfl
  have hL : (hemiInds cw2.nrows (List.map truncInt [0, 1]) 0).length = 1 := by
    with_unfolding_all rfl
  have hR : (hemiInds cw2.nrows (List.map truncInt [0, 1]) 1).length = 1 := by
    with_unfolding_all rfl
  have hv : (constOracle 1 1).Valid (hemiInds cw2.nrows (List.map truncInt [0, 1]) 0).length
      (hemiInds cw2.nrows (List.map truncInt [0, 1]) 1).length := by
    rw [hL, hR]
    exact constOracle_valid 1 1
  exact ⟨hok, hv,
    gen_spinsamples_exact_bijective (constOracle 1 1) cw2 [0, 1] 1 false
      ⟨[[0, 1]], [0], [1], 0⟩ hok hv⟩

/-- C2: in both exact and approximate modes, for every valid run, no column
maps an index whose (truncated) hemisphere label is 0 to a donor labelled
1, or vice versa: the donor of a label-0 position is again labelled 0, and
the donor of a label-1 position is again labelled 1. -/
theorem gen_spinsamples_hemisphere_separation (o : SpinOracle) (coords : NpArray2)
    (hemiid : List ℚ) (n_rotate : Nat) (chk ex : Bool) (r : SpinResult)
    (hok : gen_spinsamples o coords hemiid n_rotate chk ex = .ok r)
    (hv : o.Valid (hemiInds coords.nrows (hemiid.map truncInt) 0).length
      (hemiInds coords.nrows (hemiid.map truncInt) 1).length) :
    ∀ col ∈ r.spinsamples, ∀ i, i < coords.nrows →
      ((hemiid.map truncInt).getD i 0 = 0 →
        (hemiid.map truncInt).getD (col.getD i 0) 0 = 0) ∧
      ((hemiid.map truncInt).getD i 0 = 1 →
        (hemiid.map truncInt).getD (col.getD i 0) 0 = 1) := by
  obtain ⟨hval, hr⟩ := gen_spinsamples_ok o coords hemiid n_rotate chk ex r hok
  intro col hcol i hi
  have hcols := (spinLoop_cols_spec o ex chk coords.nrows
    (hemiInds coords.nrows (hemiid.map truncInt) 0)
    (hemiInds coords.nrows (hemiid.map truncInt) 1)
    (List.range coords.nrows) n_rotate ⟨[], [], [], false, 0, 0⟩
    (by intro c hc; cases hc) (by intro c hc; cases hc)).1
  rw [hr] at hcol
  obtain ⟨s, rfl⟩ := hcols col hcol
  constructor
  · intro h0
    have hmem := spinCandidate_mem_left o ex coords.nrows (hemiid.map truncInt) s hv i
      ((mem_hemiInds _ _ _ i).mpr ⟨hi, h0⟩)
    exact ((mem_hemiInds _ _ _ _).mp hmem).2
  · intro h1
    have hmem := spinCandidate_mem_right o ex coords.nrows (hemiid.map truncInt) s hv i
      ((mem_hemiInds _ _ _ i).mpr ⟨hi, h1⟩)
    exact ((mem_hemiInds _ _ _ _).mp hmem).2

/-- Witness for C2: a concrete valid approximate-mode run on two points,
one per hemisphere. -/
theorem gen_spinsamples_hemisphere_separation_witness :
    (gen_spinsamples (constOracle 1 1) cw2 [0, 1] 1 false false
      = .ok ⟨[[0, 1]], [0], [1], 0⟩) ∧
    ((constOracle 1 1).Valid (hemiInds cw2.nrows (List.map truncInt [0, 1]) 0).length
      (hemiInds cw2.nrows (List.map truncInt [0, 1]) 1).length) ∧
    (∀ col ∈ (⟨[[0, 1]], [0], [1], 0⟩ : SpinResult).spinsamples, ∀ i, i < cw2.nrows →
      ((List.map truncInt [0, 1]).getD i 0 = 0 →
        (List.map truncInt [0, 1]).getD (col.getD i 0) 0 = 0) ∧
      ((List.map truncInt [0, 1]).getD i 0 = 1 →
        (List.map truncInt [0, 1]).getD (col.getD i 0) 0 = 1)) := by
  have hok : gen_spinsamples (constOracle 1 1) cw2 [0, 1] 1 false false
      = .ok ⟨[[0, 1]], [0], [1], 0⟩ := by with_unfolding_all rfl
  have hL : (hemiInds cw2.nrows (List.map truncInt [0, 1]) 0).length = 1 := by
    with_unfolding_all rfl
  have hR : (hemiInds cw2.nrows (List.map truncInt [0, 1]) 1).length = 1 := by
    with_unfolding_all rfl
  have hv : (constOracle 1 1).Valid (hemiInds cw2.nrows (List.map truncInt [0, 1]) 0).length
      (hemiInds cw2.nrows (List.map truncInt [0, 1]) 1).length := by
    rw [hL, hR]
    exact constOracle_valid 1 1
  exact ⟨hok, hv,
    gen_spinsamples_hemisphere_separation (constOracle 1 1) cw2 [0, 1] 1 false false
      ⟨[[0, 1]], [0], [1], 0⟩ hok hv⟩

/-- C6: every successful valid run returns a resampling matrix with
`n_rotate` columns each of length `N = coords.nrows` (i.e. shape
`(N, n_rotate)`) and a cost vector of length `n_rotate` whose entries are
all non-negative. -/
theorem gen_spinsamples_shapes_cost_nonneg (o : SpinOracle) (coords : NpArray2)
    (hemiid : List ℚ) (n_rotate : Nat) (chk ex : Bool) (r : SpinResult)
    (hok : gen_spinsamples o coords hemiid n_rotate chk ex = .ok r)
    (hv : o.Valid (hemiInds coords.nrows (hemiid.map truncInt) 0).length
      (hemiInds coords.nrows (hemiid.map truncInt) 1).length) :
    r.spinsamples.length = n_rotate ∧
    (∀ col ∈ r.spinsamples, col.length = coords.nrows) ∧
    r.cost.length = n_rotate ∧
    (∀ x ∈ r.cost, 0 ≤ x) := by
  obtain ⟨hval, hr⟩ := gen_spinsamples_ok o coords hemiid n_rotate chk ex r hok
  have hspec := spinLoop_cols_spec o ex chk coords.nrows
    (hemiInds coords.nrows (hemiid.map truncInt) 0)
    (hemiInds coords.nrows (hemiid.map truncInt) 1)
    (List.range coords.nrows) n_rotate ⟨[], [], [], false, 0, 0⟩
    (by intro c hc; cases hc) (by intro c hc; cases hc)
  have hlen := spinLoop_lengths o ex chk coords.nrows
    (hemiInds coords.nrows (hemiid.map truncInt) 0)
    (hemiInds coords.nrows (hemiid.map truncInt) 1)
    (List.range coords.nrows) n_rotate ⟨[], [], [], false, 0, 0⟩
  subst hr
  refine ⟨by simpa using hlen.1, ?_, by simpa using hlen.2, ?_⟩
  · intro col hcol
    obtain ⟨s, rfl⟩ := hspec.1 col hcol
    exact spinCandidate_length o ex coords.nrows _ _ s
  · intro x hx
    obtain ⟨s, rfl⟩ := hspec.2 x hx
    exact spinCandidate_cost_nonneg o ex coords.nrows _ _ _ _ s hv

/-- Witness for C6: a concrete valid run with one rotation on two points. -/
theorem gen_spinsamples_shapes_cost_nonneg_witness :
    (gen_spinsamples (constOracle 1 1) cw2 [0, 1] 1 false false
      = .ok ⟨[[0, 1]], [0], [1], 0⟩) ∧
    ((constOracle 1 1).Valid (hemiInds cw2.nrows (List.map truncInt [0, 1]) 0).length
      (hemiInds cw2.nrows (List.map truncInt [0, 1]) 1).length) ∧
    ((⟨[[0, 1]], [0], [1], 0⟩ : SpinResult).spinsamples.length = 1 ∧
     (∀ col ∈ (⟨[[0, 1]], [0], [1], 0⟩ : SpinResult).spinsamples, col.length = cw2.nrows) ∧
     (⟨[[0, 1]], [0], [1], 0⟩ : SpinResult).cost.length = 1 ∧
     (∀ x ∈ (⟨[[0, 1]], [0], [1], 0⟩ : SpinResult).cost, 0 ≤ x)) := by
  have hok : gen_spinsamples (constOracle 1 1) cw2 [0, 1] 1 false false
      = .ok ⟨[[0, 1]], [0], [1], 0⟩ := by with_unfolding_all rfl
  have hL : (hemiInds cw2.nrows (List.map truncInt [0, 1]) 0).length = 1 := by
    with_unfolding_all rfl
  have hR : (hemiInds cw2.nrows (List.map truncInt [0, 1]) 1).length = 1 := by
    with_unfolding_all rfl
  have hv : (constOracle 1 1).Valid (hemiInds cw2.nrows (List.map truncInt [0, 1]) 0).length
      (hemiInds cw2.nrows (List.map truncInt [0, 1]) 1).length := by
    rw [hL, hR]
    exact constOracle_valid 1 1
  exact ⟨hok, hv,
    gen_spinsamples_shapes_cost_nonneg (constOracle 1 1) cw2 [0, 1] 1 false false
      ⟨[[0, 1]], [0], [1], 0⟩ hok hv⟩

/-- C8: with `check_duplicates=False` every column is produced by exactly
one candidate-generation attempt: the recorded attempt count of every
column is 1, no warning is ever emitted, and column `n` is exactly the
first candidate drawn for it (the candidate of random draw `n`, with draws
advancing one per column and no duplicate comparison). -/
theorem gen_spinsamples_no_check_first_accepted (o : SpinOracle) (coords : NpArray2)
    (hemiid : List ℚ) (n_rotate : Nat) (ex : Bool) (r : SpinResult)
    (hok : gen_spinsamples o coords hemiid n_rotate false ex = .ok r) :
    (∀ cnt ∈ r.counts, cnt = 1) ∧
    r.warnCount = 0 ∧
    r.spinsamples = (List.range n_rotate).map
      (fun j => (spinCandidate o ex coords.nrows
        (hemiInds coords.nrows (hemiid.map truncInt) 0)
        (hemiInds coords.nrows (hemiid.map truncInt) 1) j).1) := by
  obtain ⟨hval, hr⟩ := gen_spinsamples_ok o coords hemiid n_rotate false ex r hok
  rw [spinLoop_nocheck] at hr
  subst hr
  refine ⟨?_, rfl, ?_⟩
  · intro cnt hcnt
    simp only [List.nil_append] at hcnt
    exact List.eq_of_mem_replicate hcnt
  · simp only [List.nil_append]
    apply List.map_congr_left
    intro j hj
    rw [Nat.zero_add]

/-- Witness for C8: a concrete unchecked run with two rotations. -/
theorem gen_spinsamples_no_check_first_accepted_witness :
    (gen_spinsamples (constOracle 1 1) cw2 [0, 1] 2 false false
      = .ok ⟨[[0, 1], [0, 1]], [0, 0], [1, 1], 0⟩) ∧
    ((∀ cnt ∈ (⟨[[0, 1], [0, 1]], [0, 0], [1, 1], 0⟩ : SpinResult).counts, cnt = 1) ∧
     (⟨[[0, 1], [0, 1]], [0, 0], [1, 1], 0⟩ : SpinResult).warnCount = 0 ∧
     (⟨[[0, 1], [0, 1]], [0, 0], [1, 1], 0⟩ : SpinResult).spinsamples
       = (List.range 2).map
          (fun j => (spinCandidate (constOracle 1 1) false cw2.nrows
            (hemiInds cw2.nrows (List.map truncInt [0, 1]) 0)
            (hemiInds cw2.nrows (List.map truncInt [0, 1]) 1) j).1)) := by
  have hok : gen_spinsamples (constOracle 1 1) cw2 [0, 1] 2 false false
      = .ok ⟨[[0, 1], [0, 1]], [0, 0], [1, 1], 0⟩ := by with_unfolding_all rfl
  exact ⟨hok,
    gen_spinsamples_no_check_first_accepted (constOracle 1 1) cw2 [0, 1] 2 false
      ⟨[[0, 1], [0, 1]], [0, 0], [1, 1], 0⟩ hok⟩

set_option maxRecDepth 100000 in
/-- C3 counterexample: a call in which the first 499 attempts for the sole
column produce the identity assignment (duplicates) and the 500th attempt
produces a fresh, non-duplicate candidate.  The run returns that fresh
column `[1, 0, 2]` — which differs from the identity `range 3`, and there
are no previously accepted columns it could duplicate — yet the recorded
attempt count is 500 and the warning IS emitted (`warnCount = 1`).  This
refutes the claim that the warning is emitted only when the budget is
exhausted without producing a distinct candidate: the code warns whenever
`count == 500`, even when the 500th candidate is distinct. -/
theorem gen_spinsamples_warning_counterexample :
    gen_spinsamples oBoundary cw3 [0, 0, 1] 1 true false
        = .ok ⟨[[1, 0, 2]], [0], [500], 1⟩ ∧
    [1, 0, 2] ≠ List.range 3 := by
  constructor
  · with_unfolding_all rfl
  · decide

/-- C3 (amended): in every run the duplicate-retry warning is emitted at
most once, and it is emitted exactly when some column's retry loop ran the
full 500-attempt budget (`count == 500`) — regardless of whether the 500th
candidate was itself a duplicate; a column whose candidate is accepted in
fewer than 500 attempts never triggers it.  (The final candidate is always
accepted and stored, duplicate or not.) -/
theorem gen_spinsamples_warning_policy (o : SpinOracle) (coords : NpArray2)
    (hemiid : List ℚ) (n_rotate : Nat) (chk ex : Bool) (r : SpinResult)
    (hok : gen_spinsamples o coords hemiid n_rotate chk ex = .ok r) :
    r.warnCount ≤ 1 ∧ (r.warnCount = 1 ↔ 500 ∈ r.counts) := by
  obtain ⟨hval, hr⟩ := gen_spinsamples_ok o coords hemiid n_rotate chk ex r hok
  subst hr
  exact spinLoop_warn_inv o ex chk coords.nrows
    (hemiInds coords.nrows (hemiid.map truncInt) 0)
    (hemiInds coords.nrows (hemiid.map truncInt) 1)
    (List.range coords.nrows) n_rotate ⟨[], [], [], false, 0, 0⟩
    (Nat.zero_le 1) (by simp) (by simp)

/-- Witness for C3's amended statement: a run that never exhausts the
budget has `warnCount = 0`, and `500 ∉ [1]`. -/
theorem gen_spinsamples_warning_policy_witness :
    (gen_spinsamples (constOracle 1 1) cw2 [0, 1] 1 false true
      = .ok ⟨[[0, 1]], [0], [1], 0⟩) ∧
    ((⟨[[0, 1]], [0], [1], 0⟩ : SpinResult).warnCount ≤ 1 ∧
     ((⟨[[0, 1]], [0], [1], 0⟩ : SpinResult).warnCount = 1 ↔
       500 ∈ (⟨[[0, 1]], [0], [1], 0⟩ : SpinResult).counts)) := by
  have hok : gen_spinsamples (constOracle 1 1) cw2 [0, 1] 1 false true
      = .ok ⟨[[0, 1]], [0], [1], 0⟩ := by with_unfolding_all rfl
  exact ⟨hok,
    gen_spinsamples_warning_policy (constOracle 1 1) cw2 [0, 1] 1 false true
      ⟨[[0, 1]], [0], [1], 0⟩ hok⟩

/-- C4: two calls with identical coords, hemiid, n_rotate,
check_duplicates, exact and the same integer seed return identical
results — the resampling matrix, cost vector (and ghost fields) coincide —
whatever the ambient global random state of the two calls was: an integer
seed constructs a fresh deterministic stream that ignores the ambient
state. -/
theorem gen_spinsamples_deterministic (mkSeeded mkGlobal : NpArray2 → Nat → SpinOracle)
    (s : Nat) (w1 w2 : RngWorld) (coords : NpArray2) (hemiid : List ℚ)
    (n_rotate : Nat) (chk ex : Bool) :
    (gen_spinsamples_seeded mkSeeded mkGlobal (some s) w1 coords hemiid n_rotate chk ex).1
      = (gen_spinsamples_seeded mkSeeded mkGlobal (some s) w2 coords hemiid n_rotate chk ex).1 :=
  rfl

/-- C5: `gen_spinsamples` fails fast.  (a) Coordinates of shape `(N, 2)`
yield the invalid-shape error for every hemiid and oracle.  (b) With
otherwise well-formed inputs, a hemisphere-label array whose truncated
values are all 0 (hemisphere 1 absent) yields the invalid-domain error.
In both cases the result is the bare error — no partial result — and it is
the same for every oracle, i.e. it is produced before any rotation is
generated. -/
theorem gen_spinsamples_fail_fast (coords : NpArray2) (hemiid : List ℚ)
    (o oAlt : SpinOracle) (n_rotate : Nat) (chk ex : Bool) :
    (coords.ncols = 2 →
      gen_spinsamples o coords hemiid n_rotate chk ex = .error .invalidCoordsShape ∧
      gen_spinsamples o coords hemiid n_rotate chk ex
        = gen_spinsamples oAlt coords hemiid n_rotate chk ex) ∧
    (coords.ncols = 3 → squeezedNdim [coords.nrows, coords.ncols] = 2 →
      coords.nrows = hemiid.length → hemiid ≠ [] → (∀ v ∈ hemiid, truncInt v = 0) →
      gen_spinsamples o coords hemiid n_rotate chk ex = .error .invalidHemiDomain ∧
      gen_spinsamples o coords hemiid n_rotate chk ex
        = gen_spinsamples oAlt coords hemiid n_rotate chk ex) := by
  constructor
  · intro h2
    have hval : validateSpin coords hemiid = .error .invalidCoordsShape := by
      simp [validateSpin, h2]
    constructor
    · unfold gen_spinsamples
      rw [hval]
    · unfold gen_spinsamples
      rw [hval]
  · intro h3 hnd hlen hne hzero
    have hz : ∀ x ∈ hemiid.map truncInt, x = 0 := by
      intro x hx
      obtain ⟨v, hv2, rfl⟩ := List.mem_map.mp hx
      exact hzero v hv2
    have hmapne : hemiid.map truncInt ≠ [] := by
      intro hmm
      exact hne (List.map_eq_nil_iff.mp hmm)
    have hmax : listMaxZ (hemiid.map truncInt) = some 0 :=
      listMaxZ_all_zero _ hmapne hz
    have hnd2 : squeezedNdim [hemiid.length, 3] = 2 := by
      rw [← hlen, ← h3]
      exact hnd
    have hval : validateSpin coords hemiid = .error .invalidHemiDomain := by
      simp [validateSpin, h3, hnd2, hmax, List.length_map, hlen]
    constructor
    · unfold gen_spinsamples
      rw [hval]
    · unfold gen_spinsamples
      rw [hval]

/-- Witness for C5: shape `(5, 2)` coordinates raise the invalid-shape
error, and all-zero labels with shape `(2, 3)` coordinates raise the
invalid-domain error. -/
theorem gen_spinsamples_fail_fast_witness :
    (cwBad.ncols = 2 ∧
      gen_spinsamples (constOracle 1 1) cwBad [0, 1, 0, 1, 0] 1 true false
        = .error .invalidCoordsShape) ∧
    (cw2.ncols = 3 ∧ squeezedNdim [cw2.nrows, cw2.ncols] = 2 ∧
      cw2.nrows = [(0 : ℚ), 0].length ∧ ([(0 : ℚ), 0] ≠ []) ∧
      (∀ v ∈ [(0 : ℚ), 0], truncInt v = 0) ∧
      gen_spinsamples (constOracle 1 1) cw2 [0, 0] 1 true false
        = .error .invalidHemiDomain) := by
  have hzero : ∀ v ∈ [(0 : ℚ), 0], truncInt v = 0 := by
    intro v hv
    have hv0 : v = 0 := by
      rcases List.mem_cons.mp hv with h | h
      · exact h
      · simpa using h
    rw [hv0, truncInt, if_neg (by norm_num)]
    exact Int.floor_zero
  constructor
  · exact ⟨rfl,
      ((gen_spinsamples_fail_fast cwBad [0, 1, 0, 1, 0] (constOracle 1 1) (constOracle 1 1)
        1 true false).1 rfl).1⟩
  · exact ⟨rfl, rfl, rfl, by simp, hzero,
      ((gen_spinsamples_fail_fast cw2 [0, 0] (constOracle 1 1) (constOracle 1 1)
        1 true false).2 rfl rfl rfl (by simp) hzero).1⟩

/-- C10: `hemiid` is truncated to integers before domain validation, so
non-integer labels such as `[0.5, 1.9]` are silently truncated to
`[0, 1]`, pass validation, and the call proceeds to return a result
instead of raising the invalid-domain error. -/
theorem gen_spinsamples_hemiid_truncated (o : SpinOracle) (n_rotate : Nat)
    (chk ex : Bool) :
    truncInt (1 / 2) = 0 ∧ truncInt (19 / 10) = 1 ∧
    validateSpin cw2 [1 / 2, 19 / 10] = .ok [0, 1] ∧
    ∃ res, gen_spinsamples o cw2 [1 / 2, 19 / 10] n_rotate chk ex = .ok res := by
  have hval : validateSpin cw2 [1 / 2, 19 / 10] = .ok [0, 1] := by
    with_unfolding_all rfl
  refine ⟨?_, ?_, hval, ?_⟩
  · rw [truncInt, if_neg (by norm_num), Int.floor_eq_iff]
    norm_num
  · rw [truncInt, if_neg (by norm_num), Int.floor_eq_iff]
    norm_num
  · unfold gen_spinsamples
    rw [hval]
    exact ⟨_, rfl⟩

/-- C9: for every random draw (i.e. every QR factorization handed back by
the collaborator), the pair returned by the rotation generator satisfies
`rotate_r = F * rotate_l * F` where `F = diag(-1, 1, 1)`; moreover the
source's reflection matrix is exactly that diagonal matrix, and it is the
reflection negating the x-axis: `F.mulVec v = (-v 0, v 1, v 2)`. -/
theorem gen_rotation_mirrored (qr : QrPair) :
    (gen_rotation qr).2
        = Matrix.diagonal ![(-1 : ℝ), 1, 1] * (gen_rotation qr).1
          * Matrix.diagonal ![(-1 : ℝ), 1, 1] ∧
    reflect = Matrix.diagonal ![(-1 : ℝ), 1, 1] ∧
    ∀ v : Fin 3 → ℝ,
      (Matrix.diagonal ![(-1 : ℝ), 1, 1]).mulVec v = ![-(v 0), v 1, v 2] := by
  have hrefl : reflect = Matrix.diagonal ![(-1 : ℝ), 1, 1] := by
    ext i j
    fin_cases i <;> fin_cases j <;>
      simp [reflect, Matrix.diagonal, Matrix.vecHead, Matrix.vecTail, Function.comp]
  refine ⟨?_, hrefl, ?_⟩
  · have h1 : (gen_rotation qr).2 = reflect * (gen_rotation qr).1 * reflect := rfl
    rw [h1, hrefl]
  · intro v
    funext i
    rw [Matrix.mulVec_diagonal]
    fin_cases i <;> simp

/-- C7: for non-empty inputs each permutation test returns
`p = (counter + 1) / (n_perm + 1)`, where `counter` counts the null
statistics whose absolute value is at least the absolute observed
statistic; consequently `1 / (n_perm + 1) ≤ p ≤ 1`.  Stated for
`permtest_1samp`, `permtest_rel` and `permtest_pearsonr` together. -/
theorem permtest_pvalue_formula (a : List ℚ) (popmean : ℚ) (flips : Nat → Nat → ℚ)
    (b c : List ℚ) (swaps : Nat → Nat → Bool)
    (x y : List ℝ) (perms : Nat → List Nat) (n_perm : Nat)
    (ha : a ≠ []) (hbc : b.length = c.length) (hb : b ≠ [])
    (hxy : x.length = y.length) (hx : x ≠ []) :
    (∃ st p, permtest_1samp a popmean n_perm flips = some (st, p) ∧
      p = ((nullCount n_perm (flippedMean a popmean flips)
          (listMean (a.map (fun z => z - popmean))) : ℚ) + 1) / ((n_perm : ℚ) + 1) ∧
      1 / ((n_perm : ℚ) + 1) ≤ p ∧ p ≤ 1) ∧
    (∃ st p, permtest_rel b c n_perm swaps = .ok (some (st, p)) ∧
      p = ((nullCount n_perm (swappedDiffMean b c swaps)
          (listMean ((b.zip c).map (fun q => q.2 - q.1))) : ℚ) + 1) / ((n_perm : ℚ) + 1) ∧
      1 / ((n_perm : ℚ) + 1) ≤ p ∧ p ≤ 1) ∧
    (∃ st p, permtest_pearsonr x y n_perm perms = .ok (some (st, p)) ∧
      p = ((nullCountR n_perm (permCorr x y perms) (pearsonCorr x y) : ℝ) + 1)
          / ((n_perm : ℝ) + 1) ∧
      1 / ((n_perm : ℝ) + 1) ≤ p ∧ p ≤ 1) := by
  have hposQ : (0 : ℚ) < (n_perm : ℚ) + 1 := by positivity
  have hposR : (0 : ℝ) < (n_perm : ℝ) + 1 := by positivity
  refine ⟨?_, ?_, ?_⟩
  · have hne : ¬ a.length = 0 := fun h => ha (List.length_eq_zero.mp h)
    simp only [permtest_1samp, if_neg hne]
    refine ⟨_, _, rfl, ?_, ?_, ?_⟩
    · rw [foldl_count]
      unfold nullCount
      ring
    · rw [foldl_count]
      have hk0 : (0 : ℚ) ≤ (((Finset.range n_perm).filter
          (fun p => |listMean (a.map (fun z => z - popmean))|
            ≤ |flippedMean a popmean flips p|)).card : ℚ) := Nat.cast_nonneg _
      gcongr
      linarith
    · rw [foldl_count, div_le_one hposQ]
      have hk : (((Finset.range n_perm).filter
          (fun p => |listMean (a.map (fun z => z - popmean))|
            ≤ |flippedMean a popmean flips p|)).card : ℚ) ≤ (n_perm : ℚ) := by
        exact_mod_cast le_of_le_of_eq (Finset.card_filter_le _ _) (Finset.card_range n_perm)
      linarith
  · have hne1 : ¬ b.length ≠ c.length := not_ne_iff.mpr hbc
    have hne2 : ¬ b.length = 0 := fun h => hb (List.length_eq_zero.mp h)
    simp only [permtest_rel, if_neg hne1, if_neg hne2]
    refine ⟨_, _, rfl, ?_, ?_, ?_⟩
    · rw [foldl_count]
      unfold nullCount
      ring
    · rw [foldl_count]
      have hk0 : (0 : ℚ) ≤ (((Finset.range n_perm).filter
          (fun p => |listMean ((b.zip c).map (fun q => q.2 - q.1))|
            ≤ |swappedDiffMean b c swaps p|)).card : ℚ) := Nat.cast_nonneg _
      gcongr
      linarith
    · rw [foldl_count, div_le_one hposQ]
      have hk : (((Finset.range n_perm).filter
          (fun p => |listMean ((b.zip c).map (fun q => q.2 - q.1))|
            ≤ |swappedDiffMean b c swaps p|)).card : ℚ) ≤ (n_perm : ℚ) := by
        exact_mod_cast le_of_le_of_eq (Finset.card_filter_le _ _) (Finset.card_range n_perm)
      linarith
  · have hne1 : ¬ x.length ≠ y.length := not_ne_iff.mpr hxy
    have hne2 : ¬ x.length = 0 := fun h => hx (List.length_eq_zero.mp h)
    simp only [permtest_pearsonr, if_neg hne1, if_neg hne2]
    refine ⟨_, _, rfl, ?_, ?_, ?_⟩
    · rw [foldl_count_real]
      unfold nullCountR
      ring
    · rw [foldl_count_real]
      have hk0 : (0 : ℝ) ≤ ((Finset.filter
          (fun p => |pearsonCorr x y| ≤ |permCorr x y perms p|)
          (Finset.range n_perm)).card : ℝ) := Nat.cast_nonneg _
      gcongr
      linarith
    · rw [foldl_count_real, div_le_one hposR]
      have hk : ((Finset.filter
          (fun p => |pearsonCorr x y| ≤ |permCorr x y perms p|)
          (Finset.range n_perm)).card : ℝ) ≤ (n_perm : ℝ) := by
        exact_mod_cast le_of_le_of_eq (Finset.card_filter_le _ _) (Finset.card_range n_perm)
      linarith

/-- Witness for C7: singleton samples and zero permutations, where each
test returns `p = 1 = (0 + 1) / (0 + 1)`. -/
theorem permtest_pvalue_formula_witness :
    (([(1 : ℚ)] : List ℚ) ≠ []) ∧
    (([(0 : ℚ)] : List ℚ).length = ([(0 : ℚ)] : List ℚ).length) ∧
    (([(0 : ℚ)] : List ℚ) ≠ []) ∧
    (([(1 : ℝ)] : List ℝ).length = ([(1 : ℝ)] : List ℝ).length) ∧
    (([(1 : ℝ)] : List ℝ) ≠ []) ∧
    ((∃ st p, permtest_1samp [(1 : ℚ)] 0 0 (fun _ _ => 1) = some (st, p) ∧
      p = ((nullCount 0 (flippedMean [(1 : ℚ)] 0 (fun _ _ => 1))
          (listMean ([(1 : ℚ)].map (fun z => z - 0))) : ℚ) + 1) / (((0 : Nat) : ℚ) + 1) ∧
      1 / (((0 : Nat) : ℚ) + 1) ≤ p ∧ p ≤ 1) ∧
    (∃ st p, permtest_rel [(0 : ℚ)] [(0 : ℚ)] 0 (fun _ _ => false) = .ok (some (st, p)) ∧
      p = ((nullCount 0 (swappedDiffMean [(0 : ℚ)] [(0 : ℚ)] (fun _ _ => false))
          (listMean (([(0 : ℚ)].zip [(0 : ℚ)]).map (fun q => q.2 - q.1))) : ℚ) + 1)
          / (((0 : Nat) : ℚ) + 1) ∧
      1 / (((0 : Nat) : ℚ) + 1) ≤ p ∧ p ≤ 1) ∧
    (∃ st p, permtest_pearsonr [(1 : ℝ)] [(1 : ℝ)] 0 (fun _ => [0]) = .ok (some (st, p)) ∧
      p = ((nullCountR 0 (permCorr [(1 : ℝ)] [(1 : ℝ)] (fun _ => [0]))
          (pearsonCorr [(1 : ℝ)] [(1 : ℝ)]) : ℝ) + 1) / (((0 : Nat) : ℝ) + 1) ∧
      1 / (((0 : Nat) : ℝ) + 1) ≤ p ∧ p ≤ 1)) := by
  have h1 : ([(1 : ℚ)] : List ℚ) ≠ [] := by simp
  have h2 : ([(0 : ℚ)] : List ℚ).length = ([(0 : ℚ)] : List ℚ).length := rfl
  have h3 : ([(0 : ℚ)] : List ℚ) ≠ [] := by simp
  have h4 : ([(1 : ℝ)] : List ℝ).length = ([(1 : ℝ)] : List ℝ).length := rfl
  have h5 : ([(1 : ℝ)] : List ℝ) ≠ [] := by simp
  exact ⟨h1, h2, h3, h4, h5,
    permtest_pvalue_formula [(1 : ℚ)] 0 (fun _ _ => 1) [(0 : ℚ)] [(0 : ℚ)]
      (fun _ _ => false) [(1 : ℝ)] [(1 : ℝ)] (fun _ => [0]) 0 h1 h2 h3 h4 h5⟩
